import Mathlib

/-!
A verification development for the RWSync library (tne-lab/rw-synchronizer):
a single-writer / multi-reader index-arbitration state machine
(`RWSync::Manager` in `RWSyncManager.cpp` / `RWSyncManager.h`).

The C++ code is embedded shallowly: the Manager's fields become a Lean
structure, each member function becomes a pure function on that structure
(operations are modelled in their sequential interleaving semantics, so the
memory-order annotations drop out), and loops that can diverge are modelled
with `Option` (`none` = the loop never terminates / undefined behavior).
Machine ints are modelled as unbounded `Int`; the only place the 32-bit
bound matters is the constructor's range check, where `INT_MAX` appears
explicitly as 2^31 - 1.
-/

namespace RWSync

/-- `INT_MAX` for the 32-bit `int` used throughout the C++ source. -/
def INT_MAX : Int := 2147483647

/-- The fields of `RWSync::Manager` (RWSyncManager.cpp):
`writerIndex` (plain int), `latest` (atomic int), `readersOf`
(vector of atomic ints, the slot table R), `nWriters` and `nReaders`
(atomic admission counters).  The `sizeMutex` is not part of the
sequential state: in a single-thread interleaving it is free exactly when
no lockout holds it, and its acquisition/release is recorded in the
lockout event traces below. -/
structure Manager where
  writerIndex : Int
  latest : Int
  readersOf : List Int
  nWriters : Int
  nReaders : Int
deriving DecidableEq, Repr

/-- `Manager::size()`: `readersOf.size()`. -/
def Manager.size (m : Manager) : Nat := m.readersOf.length

/-- `Manager::getMaxReaders()`: `size() - 2`. -/
def Manager.getMaxReaders (m : Manager) : Int := (m.size : Int) - 2

/-- `Manager::checkoutWriter()`: CAS `nWriters` from 0 to 1; true iff it
succeeded. -/
def Manager.checkoutWriter (m : Manager) : Bool × Manager :=
  if m.nWriters = 0 then (true, { m with nWriters := 1 }) else (false, m)

/-- `Manager::returnWriter()`: exchange `nWriters <- 0` (the debug assert
`oldNWriters == 1` has no effect on the state). -/
def Manager.returnWriter (m : Manager) : Manager :=
  { m with nWriters := 0 }

/-- `Manager::checkoutReader()`: CAS loop on `nReaders`, incrementing by 1;
fails when the observed value is at least `getMaxReaders()`.  Sequentially:
the first CAS (expected 0) succeeds iff `nReaders = 0`; otherwise the loaded
value is checked against the bound, and if below it the retried CAS
succeeds. -/
def Manager.checkoutReader (m : Manager) : Bool × Manager :=
  if m.nReaders = 0 then (true, { m with nReaders := 1 })
  else if m.getMaxReaders ≤ m.nReaders then (false, m)
  else (true, { m with nReaders := m.nReaders + 1 })

/-- `Manager::returnReader()`: `nReaders.fetch_sub(1)`. -/
def Manager.returnReader (m : Manager) : Manager :=
  { m with nReaders := m.nReaders - 1 }

/-- `Manager::checkoutAllReaders(lockToLock)`: after locking the size mutex
(always free in the sequential model; the locking itself is recorded in the
lockout's event trace), CAS `nReaders` from 0 to `getMaxReaders()`; on CAS
failure the mutex is released again. -/
def Manager.checkoutAllReaders (m : Manager) : Bool × Manager :=
  if m.nReaders = 0 then (true, { m with nReaders := m.getMaxReaders })
  else (false, m)

/-- `Manager::returnAllReaders(lockToUnlock)`: store `nReaders <- 0`, then
unlock the size mutex (the unlock is recorded in the event trace). -/
def Manager.returnAllReaders (m : Manager) : Manager :=
  { m with nReaders := 0 }

/-- The scan in `Manager::pushWrite()`: the first index `i` in
`[0, R.length)` with `i ≠ w` whose cell CAS `R[i]: 0 -> -1` succeeds,
i.e. the first `i ≠ w` with `R[i] = 0`. -/
def findFree (R : List Int) (w : Nat) : Option Nat :=
  (List.range R.length).find? (fun i => i != w && R.getD i 0 == 0)

/-- `Manager::pushWrite()` (RWSyncManager.cpp lines 159-192):
store `R[writerIndex] <- 0`; store `latest <- writerIndex`; scan for the
first cell `i ≠ writerIndex` with `R[i] = 0`, CAS it to -1 and make it the
new `writerIndex`.  If the scan finds nothing, `newWriterIndex` stays -1
(the debug assert fires) and `writerIndex` becomes -1. -/
def Manager.pushWrite (m : Manager) : Manager :=
  let w := m.writerIndex.toNat
  let R1 := m.readersOf.set w 0
  match findFree R1 w with
  | some i =>
      { m with readersOf := R1.set i (-1), latest := m.writerIndex,
               writerIndex := (i : Int) }
  | none =>
      { m with readersOf := R1, latest := m.writerIndex, writerIndex := -1 }

/-- Events recording what the Lockout acquires and releases, in order. -/
inductive LkEv
  | lockMutex | unlockMutex
  | seizeReaders | releaseReaders
  | seizeWriter | releaseWriter
deriving DecidableEq, Repr

/-- The scoped `Manager::Lockout` (RWSyncManager.cpp lines 355-381):
its three flags `hasReadLock`, `hasWriteLock`, `valid`. -/
structure Lockout where
  hasReadLock : Bool
  hasWriteLock : Bool
  valid : Bool
deriving DecidableEq, Repr

/-- `Manager::Lockout::Lockout(Manager&)`: lock the size mutex (through the
deferred `sizeLock` passed to `checkoutAllReaders`), attempt to seize all
reader slots (on failure the mutex is unlocked again inside
`checkoutAllReaders`), then attempt to seize the writer slot;
`valid = hasReadLock && hasWriteLock`.  The trace records the acquisitions
in program order. -/
def Manager.lockoutCtor (m : Manager) : (Lockout × Manager) × List LkEv :=
  let rStep := m.checkoutAllReaders
  let readerEvs := if rStep.1 then [LkEv.seizeReaders] else [LkEv.unlockMutex]
  let wStep := rStep.2.checkoutWriter
  let writerEvs := if wStep.1 then [LkEv.seizeWriter] else []
  ((⟨rStep.1, wStep.1, rStep.1 && wStep.1⟩, wStep.2),
    LkEv.lockMutex :: (readerEvs ++ writerEvs))

/-- `Manager::Lockout::~Lockout()`: if `hasReadLock`, call
`returnAllReaders` (store `nReaders <- 0`, then unlock the size mutex);
then, if `hasWriteLock`, call `returnWriter`.  The trace records the
releases in program order. -/
def Manager.lockoutDtor (m : Manager) (lk : Lockout) : Manager × List LkEv :=
  let rPart :=
    if lk.hasReadLock
    then (m.returnAllReaders, [LkEv.releaseReaders, LkEv.unlockMutex])
    else (m, ([] : List LkEv))
  if lk.hasWriteLock
  then (rPart.1.returnWriter, rPart.2 ++ [LkEv.releaseWriter])
  else (rPart.1, rPart.2)

/-- The slot stores performed by a successful `Manager::reset()`:
`R[i] <- 0` for `i ∈ [1, S)`, then `R[0] <- -1`. -/
def resetSlots : List Int → List Int
  | [] => []
  | _ :: t => -1 :: t.map (fun _ => (0 : Int))

/-- `Manager::reset()` (RWSyncManager.cpp lines 32-51): construct a
`Lockout`; if invalid, return false (the Lockout destructor restores
whatever it seized); otherwise set `writerIndex <- 0`, `latest <- -1`,
`R[i] <- 0` for `i ∈ [1, S)` and `R[0] <- -1`, destroy the Lockout, and
return true. -/
def Manager.reset (m : Manager) : Bool × Manager :=
  let step := m.lockoutCtor
  let lk := step.1.1
  let m1 := step.1.2
  if lk.valid then
    let m2 := { m1 with writerIndex := 0, latest := -1,
                        readersOf := resetSlots m1.readersOf }
    (true, (m2.lockoutDtor lk).1)
  else
    (false, (m1.lockoutDtor lk).1)

/-- What a C++ `throw` statement in the source actually throws.
`Manager::Manager` executes `throw new std::domain_error(msg)`: the thrown
object is a pointer to a heap-allocated `std::domain_error`, not a
`std::domain_error` itself. -/
inductive CppThrown
  | domainError (msg : String)
  | ptrToDomainError (msg : String)
deriving DecidableEq, Repr

/-- Whether a C++ handler `catch (const std::domain_error&)` matches the
thrown entity: it matches a thrown `std::domain_error` (or subclass) by
value or reference, but not a thrown pointer `std::domain_error*`. -/
def CppThrown.catchableAsDomainError : CppThrown → Bool
  | .domainError _ => true
  | .ptrToDomainError _ => false

/-- `Manager::Manager(int maxReaders)` (RWSyncManager.cpp lines 17-29):
initialize `nReaders = nWriters = 0`; reject `maxReaders < 1` or
`maxReaders > INT_MAX - 2` by `throw new std::domain_error(...)`;
otherwise size the slot table to `maxReaders + 2` zeroed cells and run
`reset()` (which always succeeds here since both counters are 0). -/
def mkManager (maxReaders : Int) : Except CppThrown Manager :=
  if maxReaders < 1 ∨ maxReaders > INT_MAX - 2 then
    .error (.ptrToDomainError "Max readers must be in range [1, INT_MAX - 2]")
  else
    let m0 : Manager :=
      { writerIndex := 0, latest := 0,
        readersOf := List.replicate (maxReaders + 2).toNat 0,
        nWriters := 0, nReaders := 0 }
    .ok (m0.reset).2

/-- The fields of `RWSync::WriteIndex`: the non-owning back pointer
(modelled by whether it is non-null) and the `valid` flag. -/
structure WriteIndex where
  hasOwner : Bool
  valid : Bool
deriving DecidableEq, Repr

/-- `WriteIndex::WriteIndex(Manager&)`: `valid = checkoutWriter()`; if not
valid, `owner` is nulled out. -/
def mkWriteIndex (m : Manager) : WriteIndex × Manager :=
  let step := m.checkoutWriter
  if step.1 then (⟨true, true⟩, step.2) else (⟨false, false⟩, step.2)

/-- `WriteIndex::isValid()`. -/
def WriteIndex.isValid (w : WriteIndex) : Bool := w.valid

/-- `WriteIndex::operator int()`: `writerIndex` if valid, else -1. -/
def WriteIndex.toInt (w : WriteIndex) (m : Manager) : Int :=
  if w.valid then m.writerIndex else -1

/-- `WriteIndex::pushUpdate()`: `pushWrite` on the owner if valid. -/
def WriteIndex.pushUpdate (w : WriteIndex) (m : Manager) : Manager :=
  if w.valid then m.pushWrite else m

/-- `WriteIndex::~WriteIndex()`: return the writer slot if valid. -/
def WriteIndex.destroy (w : WriteIndex) (m : Manager) : Manager :=
  if w.valid then m.returnWriter else m

/-- The fields of `RWSync::ReadIndex`: the back pointer (modelled by
whether it is non-null), the `valid` flag, and `index`.  In the C++ the
`index` member of a non-admitted handle is never initialized; no defined
code path reads it, and the model fixes it to 0. -/
structure ReadIndex where
  hasOwner : Bool
  valid : Bool
  index : Int
deriving DecidableEq, Repr

/-- `ReadIndex::getLatest()` (RWSyncManager.cpp lines 318-351):
`index <- latest`; if `index ≠ -1`, CAS-loop `R[index]: k -> k+1`.
Sequentially the loop's `latestReaders == -1` branch re-loads the same
`latest` value and retries forever, so it is modelled as divergence
(`none`). -/
def ReadIndex.getLatest (r : ReadIndex) (m : Manager) :
    Option (ReadIndex × Manager) :=
  let j := m.latest
  if j = -1 then some ({ r with index := j }, m)
  else
    let k := m.readersOf.getD j.toNat 0
    if k = -1 then none
    else some ({ r with index := j },
               { m with readersOf := m.readersOf.set j.toNat (k + 1) })

/-- `ReadIndex::ReadIndex(Manager&)` (RWSyncManager.cpp lines 243-256):
`valid = checkoutReader()`; if valid, run `getLatest()`; otherwise null the
owner pointer. -/
def mkReadIndex (m : Manager) : Option (ReadIndex × Manager) :=
  let step := m.checkoutReader
  if step.1 then ReadIndex.getLatest ⟨true, true, 0⟩ step.2
  else some (⟨false, false, 0⟩, step.2)

/-- `ReadIndex::isValid()` (RWSyncManager.cpp lines 269-272):
`valid && index != -1`. -/
def ReadIndex.isValid (r : ReadIndex) : Bool :=
  r.valid && r.index != -1

/-- `ReadIndex::hasUpdate()` (RWSyncManager.cpp lines 275-281): it first
loads `owner->latest` and only then tests `valid`.  When the handle is not
admitted the constructor has set `owner = nullptr`, so that load
dereferences a null pointer: modelled as `none` (undefined behavior). -/
def ReadIndex.hasUpdate (r : ReadIndex) (m : Manager) : Option Bool :=
  if r.hasOwner then
    some (r.valid && m.latest != -1 && m.latest != r.index)
  else none

/-- `ReadIndex::finishRead()` (RWSyncManager.cpp lines 306-315): if
`index ≠ -1`, fetch-sub 1 from `R[index]`; then `index <- -1`. -/
def ReadIndex.finishRead (r : ReadIndex) (m : Manager) :
    ReadIndex × Manager :=
  if r.index = -1 then ({ r with index := -1 }, m)
  else
    let j := r.index.toNat
    ({ r with index := -1 },
     { m with readersOf := m.readersOf.set j (m.readersOf.getD j 0 - 1) })

/-- `ReadIndex::pullUpdate()` (RWSyncManager.cpp lines 284-293):
`if (!valid || !hasUpdate()) return;` — note the short circuit: an
unadmitted handle returns before `hasUpdate()` can touch the null owner —
then `finishRead(); getLatest();`. -/
def ReadIndex.pullUpdate (r : ReadIndex) (m : Manager) :
    Option (ReadIndex × Manager) :=
  if r.valid = false then some (r, m)
  else
    match r.hasUpdate m with
    | none => none
    | some false => some (r, m)
    | some true =>
        let step := r.finishRead m
        step.1.getLatest step.2

/-- `ReadIndex::operator int()`: `index` if valid, else -1. -/
def ReadIndex.toInt (r : ReadIndex) : Int :=
  if r.valid then r.index else -1

/-- `ReadIndex::~ReadIndex()` (RWSyncManager.cpp lines 259-266): if valid,
`finishRead()` then `returnReader()`. -/
def ReadIndex.destroy (r : ReadIndex) (m : Manager) : Manager :=
  if r.valid then ((r.finishRead m).2).returnReader else m

/-! ## Helper lemmas -/

theorem getD_set_self (l : List Int) (i : Nat) (v : Int) (h : i < l.length) :
    (l.set i v).getD i 0 = v := by
  simp [List.getD_eq_getElem?_getD, List.getElem?_set_self h]

theorem getD_set_ne (l : List Int) (i j : Nat) (v : Int) (h : i ≠ j) :
    (l.set i v).getD j 0 = l.getD j 0 := by
  simp [List.getD_eq_getElem?_getD, List.getElem?_set_ne h]

theorem getD_map_zero (t : List Int) (i : Nat) :
    (t.map (fun _ => (0 : Int))).getD i 0 = 0 := by
  induction t generalizing i with
  | nil => simp [List.getD]
  | cons a t ih =>
    cases i with
    | zero => simp
    | succ i => simp [ih i]

theorem resetSlots_length (R : List Int) : (resetSlots R).length = R.length := by
  cases R <;> simp [resetSlots]

theorem resetSlots_getD (R : List Int) (i : Nat) (h : i < R.length) :
    (resetSlots R).getD i 0 = if i = 0 then -1 else 0 := by
  cases R with
  | nil => simp at h
  | cons a t =>
    cases i with
    | zero => simp [resetSlots]
    | succ i => simp [resetSlots, getD_map_zero t i]

/-- Shared characterization of `Manager.reset`: it succeeds exactly when
both admission counters are zero; on success the slot table is rewritten by
`resetSlots` and the counters end where they started (at zero); on failure
the whole state is unchanged. -/
theorem reset_result (m : Manager) :
    ((m.reset).1 = true ↔ (m.nReaders = 0 ∧ m.nWriters = 0))
    ∧ ((m.nReaders = 0 ∧ m.nWriters = 0) →
        (m.reset).2 = { m with writerIndex := 0, latest := -1,
                               readersOf := resetSlots m.readersOf })
    ∧ (¬(m.nReaders = 0 ∧ m.nWriters = 0) → (m.reset).2 = m) := by
  obtain ⟨wI, lat, R, nW, nR⟩ := m
  by_cases h1 : nR = 0 <;> by_cases h2 : nW = 0 <;>
    simp [Manager.reset, Manager.lockoutCtor, Manager.lockoutDtor,
          Manager.checkoutAllReaders, Manager.checkoutWriter,
          Manager.returnAllReaders, Manager.returnWriter, h1, h2]

/-- The release event corresponding to each acquisition event. -/
def releaseOf : LkEv → LkEv
  | .lockMutex => .unlockMutex
  | .seizeReaders => .releaseReaders
  | .seizeWriter => .releaseWriter
  | e => e

/-- Whether a lockout event is an acquisition. -/
def LkEv.isAcquire : LkEv → Bool
  | .lockMutex => true
  | .seizeReaders => true
  | .seizeWriter => true
  | _ => false

/-! ## Claim theorems -/

/-- C4: `reset()` returns true iff no handle is live (both admission
counters are zero, i.e. the internal lockout can be obtained); on success it
sets `writerIndex = 0`, `latest = -1`, `R[0] = -1` and `R[i] = 0` for every
`i ∈ [1, S)`, with the admission counters ending at their (zero) prior
values; on failure it leaves `writerIndex`, `latest`, and every slot
unchanged. -/
theorem reset_spec (m : Manager) :
    ((m.reset).1 = true ↔ (m.nReaders = 0 ∧ m.nWriters = 0))
    ∧ ((m.reset).1 = true →
        ((m.reset).2.writerIndex = 0 ∧ (m.reset).2.latest = -1
         ∧ (m.reset).2.nReaders = m.nReaders ∧ (m.reset).2.nWriters = m.nWriters
         ∧ (m.reset).2.size = m.size
         ∧ ∀ i, i < m.size →
             (m.reset).2.readersOf.getD i 0 = if i = 0 then -1 else 0))
    ∧ ((m.reset).1 = false → (m.reset).2 = m) := by
  obtain ⟨hiff, hsucc, hfail⟩ := reset_result m
  refine ⟨hiff, ?_, ?_⟩
  · intro h
    have hc := hiff.mp h
    rw [hsucc hc]
    refine ⟨rfl, rfl, rfl, rfl, ?_, ?_⟩
    · simp [Manager.size, resetSlots_length]
    · intro i hi
      exact resetSlots_getD m.readersOf i hi
  · intro h
    refine hfail ?_
    intro hc
    have hh := hiff.mpr hc
    rw [h] at hh
    exact Bool.noConfusion hh

/-- Witness for C4: a Manager with one outstanding writer handle is left
unchanged by a failing `reset`; a quiescent Manager resets successfully. -/
theorem reset_spec_witness :
    (((⟨0, 7, [3, -1, 2], 0, 0⟩ : Manager).reset).1 = true
     ∧ ((⟨0, 7, [3, -1, 2], 0, 0⟩ : Manager).reset).2.latest = -1)
    ∧ (((⟨0, -1, [-1, 0, 0], 1, 0⟩ : Manager).reset).1 = false
       ∧ ((⟨0, -1, [-1, 0, 0], 1, 0⟩ : Manager).reset).2
          = (⟨0, -1, [-1, 0, 0], 1, 0⟩ : Manager)) :=
  ⟨⟨(reset_spec _).1.mpr (by decide),
    (((reset_spec (⟨0, 7, [3, -1, 2], 0, 0⟩ : Manager)).2.1
       ((reset_spec _).1.mpr (by decide))).2.1)⟩,
   ⟨by decide, (reset_spec _).2.2 (by decide)⟩⟩

/-- C5: `checkoutReader` succeeds, incrementing `nReaders` by exactly 1, iff
the observed `nReaders` is below `getMaxReaders`, and on failure leaves the
state unchanged; admission stays bounded by `maxReaders` readers and one
writer; and with maxReaders = 2, two read handles are admitted, a third is
Invalid, and `nReaders` stays 2. -/
theorem checkoutReader_spec (m : Manager) (hmr : 1 ≤ m.getMaxReaders) :
    (((m.checkoutReader).1 = true) ↔ m.nReaders < m.getMaxReaders)
    ∧ ((m.checkoutReader).1 = true →
        (m.checkoutReader).2 = { m with nReaders := m.nReaders + 1 })
    ∧ ((m.checkoutReader).1 = false → (m.checkoutReader).2 = m)
    ∧ (m.nReaders ≤ m.getMaxReaders →
        (m.checkoutReader).2.nReaders ≤ m.getMaxReaders)
    ∧ (((m.checkoutWriter).1 = true) ↔ m.nWriters = 0)
    ∧ ((m.checkoutWriter).1 = true → (m.checkoutWriter).2.nWriters = 1)
    ∧ ((m.checkoutWriter).1 = false → (m.checkoutWriter).2 = m)
    ∧ (mkReadIndex ⟨0, -1, [-1, 0, 0, 0], 0, 0⟩
        = some (⟨true, true, -1⟩, ⟨0, -1, [-1, 0, 0, 0], 0, 1⟩))
    ∧ (mkReadIndex ⟨0, -1, [-1, 0, 0, 0], 0, 1⟩
        = some (⟨true, true, -1⟩, ⟨0, -1, [-1, 0, 0, 0], 0, 2⟩))
    ∧ (mkReadIndex ⟨0, -1, [-1, 0, 0, 0], 0, 2⟩
        = some (⟨false, false, 0⟩, ⟨0, -1, [-1, 0, 0, 0], 0, 2⟩)) := by
  obtain ⟨wI, lat, R, nW, nR⟩ := m
  simp only [Manager.getMaxReaders, Manager.size] at hmr
  refine ⟨?_, ?_, ?_, ?_, ?_, ?_, ?_, by decide, by decide, by decide⟩ <;>
    by_cases h0 : nR = 0 <;>
      by_cases hge : ((R.length : Int) - 2) ≤ nR <;>
        by_cases hw : nW = 0 <;>
          simp [Manager.checkoutReader, Manager.checkoutWriter,
                Manager.getMaxReaders, Manager.size, h0, hge, hw] <;>
            omega

/-- Witness for C5 at a fresh Manager with maxReaders = 2. -/
theorem checkoutReader_spec_witness :
    (1 : Int) ≤ (⟨0, -1, [-1, 0, 0, 0], 0, 0⟩ : Manager).getMaxReaders
    ∧ ((⟨0, -1, [-1, 0, 0, 0], 0, 0⟩ : Manager).checkoutReader).1 = true :=
  ⟨by decide, (checkoutReader_spec _ (by decide)).1.mpr (by decide)⟩

/-- C6: with a non-null owner, `hasUpdate()` returns exactly
`valid && latest != -1 && latest != index`; but a handle whose admission
failed has a null owner, and `hasUpdate()` loads `owner->latest` before
checking `valid`, so evaluating it on an Invalid handle dereferences the
null owner (modelled as `none`) instead of returning false. -/
theorem hasUpdate_spec :
    (∀ (r : ReadIndex) (m : Manager), r.hasOwner = true →
      r.hasUpdate m = some (r.valid && m.latest != -1 && m.latest != r.index))
    ∧ mkReadIndex ⟨0, -1, [-1, 0, 0], 0, 1⟩
        = some (⟨false, false, 0⟩, ⟨0, -1, [-1, 0, 0], 0, 1⟩)
    ∧ (⟨false, false, 0⟩ : ReadIndex).hasUpdate ⟨0, -1, [-1, 0, 0], 0, 1⟩
        = none := by
  refine ⟨?_, by decide, by decide⟩
  intro r m h
  simp [ReadIndex.hasUpdate, h]

/-- Witness for C6's positive part: on an admitted, never-latched handle of
a Manager with no publication, `hasUpdate` computes `some false`. -/
theorem hasUpdate_spec_witness :
    (⟨true, true, -1⟩ : ReadIndex).hasUpdate ⟨0, -1, [-1, 0, 0], 0, 1⟩
      = some false :=
  ((hasUpdate_spec).1 ⟨true, true, -1⟩ ⟨0, -1, [-1, 0, 0], 0, 1⟩ rfl).trans
    (by decide)

/-- C7 counterexample: at the fresh Manager with maxReaders = 1 the Lockout
acquires [lockMutex, seizeReaders, seizeWriter], but its destructor's
release trace is [releaseReaders, unlockMutex, releaseWriter] — NOT the
reverse of the acquisition order, which would be
[releaseWriter, releaseReaders, unlockMutex]. -/
theorem lockout_reverse_release_cex :
    ¬ (((⟨0, -1, [-1, 0, 0], 0, 0⟩ : Manager).lockoutCtor.1.2.lockoutDtor
          (⟨0, -1, [-1, 0, 0], 0, 0⟩ : Manager).lockoutCtor.1.1).2
        = ((((⟨0, -1, [-1, 0, 0], 0, 0⟩ : Manager).lockoutCtor.2.filter
              LkEv.isAcquire).reverse).map releaseOf)) := by
  decide

/-- C7 amended: the Lockout acquires, in order, (1) the resize mutex,
(2) all reader slots, (3) the writer slot, and is valid iff (2) and (3)
both succeeded; on destruction it releases whichever were acquired in this
order: the reader slots first, then the resize mutex, then the writer slot
last (so not in reverse acquisition order: the writer slot is released
last, not first). -/
theorem lockout_order (m : Manager) :
    (m.lockoutCtor.2
      = LkEv.lockMutex ::
        ((if m.nReaders = 0 then [LkEv.seizeReaders] else [LkEv.unlockMutex])
          ++ (if m.nWriters = 0 then [LkEv.seizeWriter] else [])))
    ∧ (m.lockoutCtor.1.1.hasReadLock = decide (m.nReaders = 0))
    ∧ (m.lockoutCtor.1.1.hasWriteLock = decide (m.nWriters = 0))
    ∧ (m.lockoutCtor.1.1.valid
        = (m.lockoutCtor.1.1.hasReadLock && m.lockoutCtor.1.1.hasWriteLock))
    ∧ (∀ (m2 : Manager) (lk : Lockout),
        (m2.lockoutDtor lk).2
          = (if lk.hasReadLock
             then [LkEv.releaseReaders, LkEv.unlockMutex] else [])
            ++ (if lk.hasWriteLock then [LkEv.releaseWriter] else [])) := by
  refine ⟨?_, ?_, ?_, ?_, ?_⟩
  · by_cases h1 : m.nReaders = 0 <;> by_cases h2 : m.nWriters = 0 <;>
      simp [Manager.lockoutCtor, Manager.checkoutAllReaders,
            Manager.checkoutWriter, h1, h2]
  · by_cases h1 : m.nReaders = 0 <;>
      simp [Manager.lockoutCtor, Manager.checkoutAllReaders,
            Manager.checkoutWriter, h1]
  · by_cases h1 : m.nReaders = 0 <;> by_cases h2 : m.nWriters = 0 <;>
      simp [Manager.lockoutCtor, Manager.checkoutAllReaders,
            Manager.checkoutWriter, h1, h2]
  · by_cases h1 : m.nReaders = 0 <;> by_cases h2 : m.nWriters = 0 <;>
      simp [Manager.lockoutCtor, Manager.checkoutAllReaders,
            Manager.checkoutWriter, h1, h2]
  · intro m2 lk
    by_cases h1 : lk.hasReadLock <;> by_cases h2 : lk.hasWriteLock <;>
      simp [Manager.lockoutDtor, h1, h2]

/-- C8: out-of-range `maxReaders` makes the constructor throw — but what is
thrown is a pointer to a heap-allocated `std::domain_error`
(`throw new std::domain_error(...)`), which a `catch (std::domain_error&)`
handler does not match; in-range construction yields `S = maxReaders + 2`
slots in the reset state. -/
theorem mkManager_spec :
    (∀ n : Int, (n < 1 ∨ n > INT_MAX - 2) →
      ∃ msg, mkManager n = .error (.ptrToDomainError msg)
        ∧ (CppThrown.ptrToDomainError msg).catchableAsDomainError = false)
    ∧ (∀ n : Int, 1 ≤ n → n ≤ INT_MAX - 2 →
        ∃ m : Manager, mkManager n = .ok m
          ∧ (m.size : Int) = n + 2
          ∧ m.getMaxReaders = n
          ∧ m.writerIndex = 0 ∧ m.latest = -1
          ∧ m.nReaders = 0 ∧ m.nWriters = 0
          ∧ (∀ i, i < m.size →
              m.readersOf.getD i 0 = if i = 0 then -1 else 0)) := by
  constructor
  · intro n h
    refine ⟨"Max readers must be in range [1, INT_MAX - 2]", ?_, rfl⟩
    unfold mkManager
    rw [if_pos h]
  · intro n h1 h2
    have hcond : ¬ (n < 1 ∨ n > INT_MAX - 2) := by
      rintro (h | h)
      · exact absurd h (not_lt.mpr h1)
      · exact absurd h (not_lt.mpr h2)
    have hok : mkManager n
        = .ok ((Manager.reset ⟨0, 0, List.replicate (n + 2).toNat 0, 0, 0⟩).2) := by
      unfold mkManager
      rw [if_neg hcond]
    have hres := (reset_result ⟨0, 0, List.replicate (n + 2).toNat 0, 0, 0⟩).2.1
      ⟨rfl, rfl⟩
    rw [hres] at hok
    have hlen : ((List.replicate (n + 2).toNat (0 : Int)).length : Int) = n + 2 := by
      simp [Int.toNat_of_nonneg (by omega : (0 : Int) ≤ n + 2)]
    refine ⟨_, hok, ?_, ?_, rfl, rfl, rfl, rfl, ?_⟩
    · simpa [Manager.size, resetSlots_length] using hlen
    · simp only [Manager.getMaxReaders, Manager.size]
      rw [show ((resetSlots (List.replicate (n + 2).toNat 0)).length : Int)
            = n + 2 by simpa [resetSlots_length] using hlen]
      ring
    · intro i hi
      exact resetSlots_getD _ i (by simpa [Manager.size, resetSlots_length] using hi)

/-- Witness for C8: `mkManager 0` throws the pointer-to-domain-error, and
`mkManager 1` builds a reset 3-slot Manager. -/
theorem mkManager_spec_witness :
    (∃ msg, mkManager 0 = .error (.ptrToDomainError msg)
       ∧ (CppThrown.ptrToDomainError msg).catchableAsDomainError = false)
    ∧ (∃ m : Manager, mkManager 1 = .ok m ∧ m.getMaxReaders = 1) := by
  refine ⟨(mkManager_spec).1 0 (by decide), ?_⟩
  obtain ⟨m, hok, _, hmax, _⟩ := (mkManager_spec).2 1 (by decide) (by decide)
  exact ⟨m, hok, hmax⟩

/-- C9: `isValid()` is exactly `valid && index != -1`; a handle admitted
before any publication has `valid = true` but `isValid() = false`, yet it
occupies a reader slot (`nReaders` counts it), it can later latch via
`pullUpdate` after a publication, and its destructor still returns the
reader slot. -/
theorem isValid_spec :
    (∀ r : ReadIndex, r.isValid = (r.valid && r.index != -1))
    ∧ mkReadIndex ⟨0, -1, [-1, 0, 0], 0, 0⟩
        = some (⟨true, true, -1⟩, ⟨0, -1, [-1, 0, 0], 0, 1⟩)
    ∧ (⟨true, true, -1⟩ : ReadIndex).valid = true
    ∧ (⟨true, true, -1⟩ : ReadIndex).isValid = false
    ∧ (⟨0, -1, [-1, 0, 0], 0, 1⟩ : Manager).nReaders = 1
    ∧ (⟨0, -1, [-1, 0, 0], 0, 1⟩ : Manager).pushWrite
        = ⟨1, 0, [0, -1, 0], 0, 1⟩
    ∧ (⟨true, true, -1⟩ : ReadIndex).pullUpdate ⟨1, 0, [0, -1, 0], 0, 1⟩
        = some (⟨true, true, 0⟩, ⟨1, 0, [1, -1, 0], 0, 1⟩)
    ∧ (⟨true, true, 0⟩ : ReadIndex).isValid = true
    ∧ (⟨true, true, -1⟩ : ReadIndex).destroy ⟨0, -1, [-1, 0, 0], 0, 1⟩
        = ⟨0, -1, [-1, 0, 0], 0, 0⟩ := by
  exact ⟨fun r => rfl, by decide, by decide, by decide, by decide, by decide,
         by decide, by decide, by decide⟩

/-- C10: for every Manager state, constructing and then destroying a
Lockout (valid or not) restores the entire state, and no Lockout ever
modifies `writerIndex`, `latest`, or the slot table at any point. -/
theorem lockout_frame (m : Manager) :
    ((m.lockoutCtor.1.2.lockoutDtor m.lockoutCtor.1.1).1 = m)
    ∧ m.lockoutCtor.1.2.writerIndex = m.writerIndex
    ∧ m.lockoutCtor.1.2.latest = m.latest
    ∧ m.lockoutCtor.1.2.readersOf = m.readersOf := by
  obtain ⟨wI, lat, R, nW, nR⟩ := m
  by_cases h1 : nR = 0 <;> by_cases h2 : nW = 0 <;>
    simp [Manager.lockoutCtor, Manager.lockoutDtor, Manager.checkoutAllReaders,
          Manager.checkoutWriter, Manager.returnAllReaders,
          Manager.returnWriter, h1, h2]

/-! ## The publication scan: existence of a free cell -/

/-- The positive part `max(x, 0)` of a slot entry. -/
def posPart (x : Int) : Int := max x 0

/-- The sum of the positive parts of a slot table: the total number of
latches held by readers. -/
def posSum (l : List Int) : Int := (l.map posPart).sum

theorem posPart_nonneg (x : Int) : 0 ≤ posPart x := le_max_right x 0

theorem posSum_nil : posSum [] = 0 := rfl

theorem posSum_cons (a : Int) (t : List Int) :
    posSum (a :: t) = posPart a + posSum t := by
  simp [posSum]

theorem posSum_nonneg (l : List Int) : 0 ≤ posSum l := by
  induction l with
  | nil => exact le_refl 0
  | cons a t ih =>
    rw [posSum_cons]
    have := posPart_nonneg a
    omega

theorem posSum_set_zero_le (l : List Int) (i : Nat) :
    posSum (l.set i 0) ≤ posSum l := by
  induction l generalizing i with
  | nil => simp [List.set]
  | cons a t ih =>
    cases i with
    | zero =>
      rw [List.set_cons_zero, posSum_cons, posSum_cons]
      have := posPart_nonneg a
      have : posPart (0 : Int) = 0 := rfl
      omega
    | succ i =>
      rw [List.set_cons_succ, posSum_cons, posSum_cons]
      have := ih i
      omega

/-- A list of nonnegative entries whose positive-part sum is below its
length holds a zero entry. -/
theorem exists_zero_entry (t : List Int) (hge : ∀ x ∈ t, 0 ≤ x)
    (hsum : posSum t + 1 ≤ (t.length : Int)) :
    ∃ i, i < t.length ∧ t.getD i 0 = 0 := by
  induction t with
  | nil => exact absurd hsum (by decide)
  | cons a t ih =>
    by_cases ha : a = 0
    · exact ⟨0, by simp, by simp [ha]⟩
    · have ha0 : 0 ≤ a := hge a (List.mem_cons_self a t)
      have ha1 : 1 ≤ a := by omega
      have hpa : posPart a = a := max_eq_left ha0
      rw [posSum_cons, hpa] at hsum
      simp only [List.length_cons] at hsum
      obtain ⟨i, hi, hz⟩ := ih (fun x hx => hge x (List.mem_cons_of_mem a hx))
        (by push_cast at hsum; omega)
      exact ⟨i + 1, by simpa using hi, by simpa using hz⟩

/-- A list of nonnegative entries whose positive-part sum is at least two
below its length holds a zero entry away from any designated index `w`. -/
theorem exists_zero_entry_ne (R : List Int) (w : Nat)
    (hge : ∀ x ∈ R, 0 ≤ x)
    (hsum : posSum R + 2 ≤ (R.length : Int)) :
    ∃ i, i < R.length ∧ i ≠ w ∧ R.getD i 0 = 0 := by
  induction R generalizing w with
  | nil => exact absurd hsum (by decide)
  | cons a t ih =>
    have hge_t : ∀ x ∈ t, 0 ≤ x := fun x hx => hge x (List.mem_cons_of_mem a hx)
    cases w with
    | zero =>
      have ha0 : 0 ≤ posPart a := posPart_nonneg a
      rw [posSum_cons] at hsum
      simp only [List.length_cons] at hsum
      obtain ⟨i, hi, hz⟩ := exists_zero_entry t hge_t (by push_cast at hsum ⊢; omega)
      exact ⟨i + 1, by simpa using hi, by omega, by simpa using hz⟩
    | succ v =>
      by_cases ha : a = 0
      · exact ⟨0, by simp, by omega, by simp [ha]⟩
      · have ha0 : 0 ≤ a := hge a (List.mem_cons_self a t)
        have hpa : posPart a = a := max_eq_left ha0
        rw [posSum_cons, hpa] at hsum
        simp only [List.length_cons] at hsum
        obtain ⟨i, hi, hne, hz⟩ := ih v hge_t (by push_cast at hsum ⊢; omega)
        exact ⟨i + 1, by simpa using hi, by omega, by simpa using hz⟩

/-- If some cell away from `w` is zero, the scan finds one (the first). -/
theorem findFree_some (R : List Int) (w : Nat)
    (h : ∃ i, i < R.length ∧ i ≠ w ∧ R.getD i 0 = 0) :
    ∃ j, findFree R w = some j ∧ j < R.length ∧ j ≠ w ∧ R.getD j 0 = 0 := by
  obtain ⟨i, hi, hne, hz⟩ := h
  cases hf : findFree R w with
  | none =>
    rw [findFree, List.find?_eq_none] at hf
    have hb : (i != w && R.getD i 0 == 0) = true := by
      simp only [Bool.and_eq_true, bne_iff_ne, ne_eq, beq_iff_eq]
      exact ⟨hne, hz⟩
    exact absurd hb (hf i (List.mem_range.mpr hi))
  | some j =>
    have hp := List.find?_some hf
    have hmem := List.mem_of_find?_eq_some hf
    simp only [Bool.and_eq_true, bne_iff_ne, ne_eq, beq_iff_eq] at hp
    exact ⟨j, rfl, List.mem_range.mp hmem, hp.1, hp.2⟩

/-- Entry-wise nonnegativity of the slot table after the draft cell is
zeroed, given nonnegativity away from the draft. -/
theorem set_draft_nonneg (R : List Int) (w : Nat) (hw : w < R.length)
    (hnn : ∀ i, i < R.length → i ≠ w → 0 ≤ R.getD i 0) :
    ∀ x ∈ R.set w 0, 0 ≤ x := by
  intro x hx
  obtain ⟨n, hn, hget⟩ := List.mem_iff_getElem.mp hx
  have hlen : n < R.length := by simpa using hn
  have hgetD : (R.set w 0).getD n 0 = x := by
    rw [List.getD_eq_getElem?_getD, List.getElem?_eq_getElem hn, Option.getD_some, hget]
  by_cases hnw : n = w
  · subst hnw
    rw [getD_set_self R n 0 hlen] at hgetD
    omega
  · rw [getD_set_ne R w n 0 (fun hh => hnw hh.symm)] at hgetD
    have := hnn n hlen hnw
    omega

/-- Shared characterization of `Manager.pushWrite` under the sizing
invariant: the scan finds a free cell and the state is rewritten as the
code's success path does. -/
theorem pushWrite_scan (m : Manager)
    (hwlt : m.writerIndex.toNat < m.size)
    (hnn : ∀ i, i < m.size → i ≠ m.writerIndex.toNat → 0 ≤ m.readersOf.getD i 0)
    (hpos : posSum m.readersOf ≤ m.getMaxReaders) :
    ∃ i, i < m.size ∧ (i : Int) ≠ m.writerIndex
      ∧ (m.readersOf.set m.writerIndex.toNat 0).getD i 0 = 0
      ∧ findFree (m.readersOf.set m.writerIndex.toNat 0) m.writerIndex.toNat
          = some i
      ∧ m.pushWrite = { m with
          readersOf := (m.readersOf.set m.writerIndex.toNat 0).set i (-1),
          latest := m.writerIndex,
          writerIndex := (i : Int) } := by
  have hof : ∀ x ∈ m.readersOf.set m.writerIndex.toNat 0, 0 ≤ x :=
    set_draft_nonneg m.readersOf m.writerIndex.toNat hwlt hnn
  have hlen : (m.readersOf.set m.writerIndex.toNat 0).length = m.size := by
    simp [Manager.size]
  have hsum : posSum (m.readersOf.set m.writerIndex.toNat 0) + 2
      ≤ ((m.readersOf.set m.writerIndex.toNat 0).length : Int) := by
    have h1 := posSum_set_zero_le m.readersOf m.writerIndex.toNat
    rw [hlen]
    simp only [Manager.getMaxReaders] at hpos
    omega
  obtain ⟨j, hfind, hjlt, hjne, hjz⟩ := findFree_some _ _
    (exists_zero_entry_ne _ _ hof hsum)
  rw [hlen] at hjlt
  refine ⟨j, hjlt, ?_, hjz, hfind, ?_⟩
  · intro hc
    apply hjne
    have : ((j : Int)).toNat = m.writerIndex.toNat := by rw [hc]
    simpa using this
  · simp only [Manager.pushWrite]
    rw [hfind]

/-- The sizing invariant of spec §3 (I3 together with the slot-value
regimes of I4): `writerIndex` is in range and is the unique index holding
-1, all entries are at least -1, and the sum of positive entries is at
most `maxReaders`. -/
def SizingInv (m : Manager) : Prop :=
  0 ≤ m.writerIndex ∧ m.writerIndex.toNat < m.size
  ∧ m.readersOf.getD m.writerIndex.toNat 0 = -1
  ∧ (∀ i, i < m.size → m.readersOf.getD i 0 = -1 → i = m.writerIndex.toNat)
  ∧ (∀ i, i < m.size → -1 ≤ m.readersOf.getD i 0)
  ∧ posSum m.readersOf ≤ m.getMaxReaders

instance : DecidablePred SizingInv := fun m => by
  unfold SizingInv
  infer_instance

theorem sizingInv_nonneg_away (m : Manager) (h : SizingInv m) :
    ∀ i, i < m.size → i ≠ m.writerIndex.toNat → 0 ≤ m.readersOf.getD i 0 := by
  obtain ⟨-, -, -, huniq, hlow, -⟩ := h
  intro i hi hne
  have h1 := hlow i hi
  rcases eq_or_lt_of_le h1 with h2 | h2
  · exact absurd (huniq i hi h2.symm) hne
  · omega

/-- C1: under the sizing invariant, `pushWrite` zeroes the old draft cell,
publishes it in `latest`, and the single scan (skipping the old
`writerIndex`) finds a cell with `R[i] = 0`, claims it with -1, and makes
it the new `writerIndex`; the scan's failure branch is unreachable. -/
theorem pushWrite_spec (m : Manager) (h : SizingInv m) :
    ∃ i, i < m.size ∧ (i : Int) ≠ m.writerIndex
      ∧ (m.readersOf.set m.writerIndex.toNat 0).getD i 0 = 0
      ∧ findFree (m.readersOf.set m.writerIndex.toNat 0) m.writerIndex.toNat
          = some i
      ∧ m.pushWrite = { m with
          readersOf := (m.readersOf.set m.writerIndex.toNat 0).set i (-1),
          latest := m.writerIndex,
          writerIndex := (i : Int) } :=
  pushWrite_scan m h.2.1 (sizingInv_nonneg_away m h) h.2.2.2.2.2

/-- Witness for C1 at a fresh Manager with maxReaders = 1. -/
theorem pushWrite_spec_witness :
    SizingInv ⟨0, -1, [-1, 0, 0], 0, 0⟩
    ∧ ∃ i, i < (⟨0, -1, [-1, 0, 0], 0, 0⟩ : Manager).size
        ∧ (i : Int) ≠ (⟨0, -1, [-1, 0, 0], 0, 0⟩ : Manager).writerIndex
        ∧ (((⟨0, -1, [-1, 0, 0], 0, 0⟩ : Manager).readersOf.set
              (⟨0, -1, [-1, 0, 0], 0, 0⟩ : Manager).writerIndex.toNat 0).getD i 0
            = 0)
        ∧ findFree ((⟨0, -1, [-1, 0, 0], 0, 0⟩ : Manager).readersOf.set
              (⟨0, -1, [-1, 0, 0], 0, 0⟩ : Manager).writerIndex.toNat 0)
              (⟨0, -1, [-1, 0, 0], 0, 0⟩ : Manager).writerIndex.toNat = some i
        ∧ (⟨0, -1, [-1, 0, 0], 0, 0⟩ : Manager).pushWrite
            = { (⟨0, -1, [-1, 0, 0], 0, 0⟩ : Manager) with
                readersOf := ((⟨0, -1, [-1, 0, 0], 0, 0⟩ : Manager).readersOf.set
                  (⟨0, -1, [-1, 0, 0], 0, 0⟩ : Manager).writerIndex.toNat 0).set i (-1),
                latest := (⟨0, -1, [-1, 0, 0], 0, 0⟩ : Manager).writerIndex,
                writerIndex := (i : Int) } :=
  ⟨by decide, pushWrite_spec ⟨0, -1, [-1, 0, 0], 0, 0⟩ (by decide)⟩

/-! ## Round-trip through the Container views -/

/-- The Container write view store `*WritePtr = v`: writes
`data[writerIndex]` (Container.ipp, `WritePtr::operator*` returns
`owner->data[ind]` with `ind` converting to `writerIndex`). -/
def writeDraft (m : Manager) (data : List Int) (v : Int) : List Int :=
  data.set m.writerIndex.toNat v

/-- The Container read view dereference `*ReadPtr`: reads `data[(int)ind]`
(Container.ipp, `ReadPtr::operator*`). -/
def readDeref (r : ReadIndex) (data : List Int) : Int :=
  data.getD r.toInt.toNat 0

/-- `checkoutReader` below the bound: it succeeds and increments
`nReaders` by one. -/
theorem checkoutReader_succeeds (m : Manager)
    (h : m.nReaders < m.getMaxReaders) :
    m.checkoutReader = (true, { m with nReaders := m.nReaders + 1 }) := by
  unfold Manager.checkoutReader
  by_cases h0 : m.nReaders = 0
  · rw [if_pos h0]
    simp [h0]
  · rw [if_neg h0, if_neg (not_le.mpr h)]

/-- A freshly constructed `ReadIndex` on a Manager with a nonnegative
`latest` whose cell is not a draft: it is admitted and latches `latest`,
incrementing that cell. -/
theorem fresh_read_latches (m1 : Manager) (hl0 : 0 ≤ m1.latest)
    (hk : 0 ≤ m1.readersOf.getD m1.latest.toNat 0)
    (hnr : m1.nReaders < m1.getMaxReaders) :
    mkReadIndex m1
      = some (⟨true, true, m1.latest⟩,
        { m1 with nReaders := m1.nReaders + 1,
                  readersOf := m1.readersOf.set m1.latest.toNat
                    (m1.readersOf.getD m1.latest.toNat 0 + 1) }) := by
  have hchk := checkoutReader_succeeds m1 hnr
  have hne : ¬ m1.latest = -1 := by omega
  have hkne : ¬ m1.readersOf.getD m1.latest.toNat 0 = -1 := by omega
  rw [List.getD_eq_getElem?_getD] at hkne
  simp [mkReadIndex, hchk, ReadIndex.getLatest, hne, hkne]

/-- C3: round-trip.  From any Manager satisfying the sizing invariant with
a Valid `WriteIndex` and a free reader slot: write `v` into the draft cell,
publish with `pushUpdate`, and a freshly constructed `ReadIndex` is
admitted and latched exactly on the cell just published, so dereferencing
it through the container yields exactly `v` — as long as no further
publication intervened.  The second conjunct runs the claim's concrete
scenario: maxReaders = 1, values 0, 1, 2 published in sequence, and after
each publish a fresh read handle observes the posted value exactly. -/
theorem roundTrip_spec (m : Manager) (data : List Int) (v : Int)
    (w : WriteIndex) (hwv : w.valid = true)
    (h : SizingInv m) (hlen : data.length = m.size)
    (hnr : m.nReaders < m.getMaxReaders) :
    (∃ r m2, mkReadIndex (w.pushUpdate m) = some (r, m2)
      ∧ r.valid = true ∧ r.index = m.writerIndex ∧ r.isValid = true
      ∧ (w.pushUpdate m).latest = m.writerIndex
      ∧ readDeref r (writeDraft m data v) = v)
    ∧ (writeDraft ⟨0, -1, [-1, 0, 0], 0, 0⟩ [7, 7, 7] 0 = [0, 7, 7]
       ∧ mkReadIndex ((⟨0, -1, [-1, 0, 0], 0, 0⟩ : Manager).pushWrite)
           = some (⟨true, true, 0⟩, ⟨1, 0, [1, -1, 0], 0, 1⟩)
       ∧ readDeref ⟨true, true, 0⟩ [0, 7, 7] = 0
       ∧ (⟨true, true, 0⟩ : ReadIndex).destroy ⟨1, 0, [1, -1, 0], 0, 1⟩
           = ⟨1, 0, [0, -1, 0], 0, 0⟩
       ∧ writeDraft ⟨1, 0, [0, -1, 0], 0, 0⟩ [0, 7, 7] 1 = [0, 1, 7]
       ∧ mkReadIndex ((⟨1, 0, [0, -1, 0], 0, 0⟩ : Manager).pushWrite)
           = some (⟨true, true, 1⟩, ⟨0, 1, [-1, 1, 0], 0, 1⟩)
       ∧ readDeref ⟨true, true, 1⟩ [0, 1, 7] = 1
       ∧ (⟨true, true, 1⟩ : ReadIndex).destroy ⟨0, 1, [-1, 1, 0], 0, 1⟩
           = ⟨0, 1, [-1, 0, 0], 0, 0⟩
       ∧ writeDraft ⟨0, 1, [-1, 0, 0], 0, 0⟩ [0, 1, 7] 2 = [2, 1, 7]
       ∧ mkReadIndex ((⟨0, 1, [-1, 0, 0], 0, 0⟩ : Manager).pushWrite)
           = some (⟨true, true, 0⟩, ⟨1, 0, [1, -1, 0], 0, 1⟩)
       ∧ readDeref ⟨true, true, 0⟩ [2, 1, 7] = 2) := by
  constructor
  · obtain ⟨j, hjlt, hjne, hjz, hfind, hpw⟩ :=
      pushWrite_scan m h.2.1 (sizingInv_nonneg_away m h) h.2.2.2.2.2
    have hw0 : 0 ≤ m.writerIndex := h.1
    have hwlt : m.writerIndex.toNat < m.size := h.2.1
    have hjneN : j ≠ m.writerIndex.toNat := by
      intro hc
      exact hjne (by rw [hc]; exact Int.toNat_of_nonneg hw0)
    have hpush : w.pushUpdate m = m.pushWrite := by
      simp [WriteIndex.pushUpdate, hwv]
    rw [hpush, hpw]
    have hk : ((m.readersOf.set m.writerIndex.toNat 0).set j (-1)).getD
        m.writerIndex.toNat 0 = 0 := by
      rw [getD_set_ne _ j m.writerIndex.toNat (-1) (fun hh => hjneN hh)]
      exact getD_set_self m.readersOf m.writerIndex.toNat 0 hwlt
    have hfr := fresh_read_latches
      { m with readersOf := (m.readersOf.set m.writerIndex.toNat 0).set j (-1),
               latest := m.writerIndex, writerIndex := (j : Int) }
      hw0 hk.symm.le
      (by simpa [Manager.getMaxReaders, Manager.size] using hnr)
    refine ⟨_, _, hfr, rfl, rfl, ?_, rfl, ?_⟩
    · simp only [ReadIndex.isValid, Bool.true_and, bne_iff_ne, ne_eq]
      omega
    · simp only [readDeref, ReadIndex.toInt, writeDraft, if_pos rfl]
      exact getD_set_self data m.writerIndex.toNat v (hlen ▸ hwlt)
  · exact ⟨by decide, by decide, by decide, by decide, by decide, by decide,
           by decide, by decide, by decide, by decide, by decide⟩

/-- Witness for C3: write 42 into a fresh maxReaders = 1 Manager's draft
cell, publish, and a fresh read handle dereferences to 42. -/
theorem roundTrip_spec_witness :
    ∃ r m2,
      mkReadIndex ((⟨true, true⟩ : WriteIndex).pushUpdate
          ⟨0, -1, [-1, 0, 0], 0, 0⟩) = some (r, m2)
      ∧ r.valid = true ∧ r.index = (0 : Int) ∧ r.isValid = true
      ∧ ((⟨true, true⟩ : WriteIndex).pushUpdate
          (⟨0, -1, [-1, 0, 0], 0, 0⟩ : Manager)).latest = 0
      ∧ readDeref r (writeDraft ⟨0, -1, [-1, 0, 0], 0, 0⟩ [7, 7, 7] 42) = 42 :=
  (roundTrip_spec ⟨0, -1, [-1, 0, 0], 0, 0⟩ [7, 7, 7] 42 ⟨true, true⟩ rfl
    (by decide) (by decide) (by decide)).1

/-! ## Configurations: a Manager together with its live read handles -/

/-- Handle `r` holds a latch on cell `i`. -/
def latchPred (i : Nat) (r : ReadIndex) : Bool :=
  r.valid && r.index == (i : Int)

/-- The number of live handles latched on cell `i`. -/
def cellCount (rs : List ReadIndex) (i : Nat) : Nat :=
  rs.countP (latchPred i)

/-- The number of live handles holding any latch. -/
def latchedCount (rs : List ReadIndex) : Nat :=
  rs.countP (fun r => r.valid && r.index != -1)

/-- The sequential state invariant tying the Manager's fields to the
multiset of live (admitted) read handles: the draft cell is in range and
holds -1; every other cell holds exactly the number of handles latched on
it; no handle is latched on the draft; every live handle is admitted and
latched in range (or unlatched); `nReaders` counts the live handles, which
fit within `maxReaders`; and `latest` is -1 or a non-draft index in
range. -/
def ConfigInv (m : Manager) (rs : List ReadIndex) : Prop :=
  3 ≤ m.size
  ∧ 0 ≤ m.writerIndex
  ∧ m.writerIndex.toNat < m.size
  ∧ m.readersOf.getD m.writerIndex.toNat 0 = -1
  ∧ (∀ i, i < m.size → i ≠ m.writerIndex.toNat →
      m.readersOf.getD i 0 = (cellCount rs i : Int))
  ∧ cellCount rs m.writerIndex.toNat = 0
  ∧ (∀ r ∈ rs, r.valid = true
      ∧ (r.index = -1 ∨ (0 ≤ r.index ∧ r.index.toNat < m.size)))
  ∧ m.nReaders = (rs.length : Int)
  ∧ (rs.length : Int) ≤ m.getMaxReaders
  ∧ (m.latest = -1
      ∨ (0 ≤ m.latest ∧ m.latest.toNat < m.size
         ∧ m.latest ≠ m.writerIndex))

instance (m : Manager) (rs : List ReadIndex) : Decidable (ConfigInv m rs) := by
  unfold ConfigInv
  infer_instance

/-- The invariants named by the claim: exactly one cell (the draft) holds
-1; every cell is at least -1; `latest` is -1 or a valid non-draft index
whose cell is nonnegative; and the sum of the positive cell entries equals
the number of latched live read handles. -/
def ClaimedInvariants (m : Manager) (rs : List ReadIndex) : Prop :=
  (∀ i, i < m.size →
    (m.readersOf.getD i 0 = -1 ↔ i = m.writerIndex.toNat))
  ∧ (∀ i, i < m.size → -1 ≤ m.readersOf.getD i 0)
  ∧ (m.latest = -1
      ∨ (0 ≤ m.latest ∧ m.latest.toNat < m.size
         ∧ m.latest ≠ m.writerIndex
         ∧ 0 ≤ m.readersOf.getD m.latest.toNat 0))
  ∧ posSum m.readersOf = (latchedCount rs : Int)

/-! ### Indexed sums -/

/-- Sum of `f i` over `i < n`. -/
def rangeSum (n : Nat) (f : Nat → Int) : Int := ((List.range n).map f).sum

theorem rangeSum_succ (n : Nat) (f : Nat → Int) :
    rangeSum (n + 1) f = rangeSum n f + f n := by
  simp [rangeSum, List.range_succ]

theorem rangeSum_zero_fn (n : Nat) : rangeSum n (fun _ => (0 : Int)) = 0 := by
  induction n with
  | zero => rfl
  | succ n ih => rw [rangeSum_succ, ih]; ring

theorem rangeSum_congr (n : Nat) (f g : Nat → Int)
    (h : ∀ i, i < n → f i = g i) : rangeSum n f = rangeSum n g := by
  induction n with
  | zero => rfl
  | succ n ih =>
    rw [rangeSum_succ, rangeSum_succ, ih (fun i hi => h i (by omega)),
        h n (by omega)]

theorem rangeSum_add (n : Nat) (f g : Nat → Int) :
    rangeSum n (fun i => f i + g i) = rangeSum n f + rangeSum n g := by
  induction n with
  | zero => rfl
  | succ n ih =>
    rw [rangeSum_succ, rangeSum_succ, rangeSum_succ, ih]
    ring

theorem rangeSum_indicator (n : Nat) (v : Int) (h0 : 0 ≤ v)
    (hlt : v.toNat < n) :
    rangeSum n (fun i => if v = (i : Int) then 1 else 0) = 1 := by
  induction n with
  | zero => omega
  | succ n ih =>
    rw [rangeSum_succ]
    by_cases hv : v = (n : Int)
    · rw [if_pos hv]
      have hz : rangeSum n (fun i => if v = (i : Int) then (1 : Int) else 0)
          = rangeSum n (fun _ => (0 : Int)) := by
        apply rangeSum_congr
        intro i hi
        rw [if_neg]
        omega
      rw [hz, rangeSum_zero_fn]
      ring
    · rw [if_neg hv, ih (by omega)]
      ring

theorem latchPred_of_neg (i : Nat) (r : ReadIndex) (h : r.index = -1) :
    latchPred i r = false := by
  have hb : ((-1 : Int) == (i : Int)) = false := by
    rw [beq_eq_false_iff_ne]
    omega
  simp [latchPred, h, hb]

/-- The indexed sum over all cells of a single handle's latch indicator is
its contribution to the latched-handle count. -/
theorem rangeSum_latch_indicator (S : Nat) (r : ReadIndex)
    (hok : r.index = -1 ∨ (0 ≤ r.index ∧ r.index.toNat < S)) :
    rangeSum S (fun i => if latchPred i r then 1 else 0)
      = if r.valid && r.index != -1 then 1 else 0 := by
  by_cases hv : r.valid = true
  · rcases hok with hneg | ⟨h0, hlt⟩
    · have hz : ∀ i, i < S → (if latchPred i r then (1 : Int) else 0) = 0 := by
        intro i hi
        rw [latchPred_of_neg i r hneg]
        simp
      rw [rangeSum_congr S _ _ hz, rangeSum_zero_fn]
      simp [hv, hneg]
    · have hco : ∀ i, i < S → (if latchPred i r then (1 : Int) else 0)
          = (if r.index = (i : Int) then 1 else 0) := by
        intro i hi
        by_cases hp : r.index = (i : Int)
        · rw [if_pos hp, if_pos]
          simp [latchPred, hv, hp]
        · rw [if_neg hp, if_neg]
          simp [latchPred, hv]
          exact hp
      rw [rangeSum_congr S _ _ hco, rangeSum_indicator S r.index h0 hlt]
      have : (r.index != -1) = true := by
        rw [bne_iff_ne]
        omega
      simp [hv, this]
  · have hv' : r.valid = false := by
      revert hv
      cases r.valid <;> simp
    have hz : ∀ i, i < S → (if latchPred i r then (1 : Int) else 0) = 0 := by
      intro i hi
      simp [latchPred, hv']
    rw [rangeSum_congr S _ _ hz, rangeSum_zero_fn]
    simp [hv']

/-- The indexed sum of per-cell latch counts is the latched-handle
count. -/
theorem rangeSum_cellCount (S : Nat) (rs : List ReadIndex)
    (hok : ∀ r ∈ rs, r.index = -1 ∨ (0 ≤ r.index ∧ r.index.toNat < S)) :
    rangeSum S (fun i => (cellCount rs i : Int)) = (latchedCount rs : Int) := by
  induction rs with
  | nil =>
    have h0 : ∀ i, i < S → ((cellCount [] i : Nat) : Int) = 0 := by
      intro i hi
      simp [cellCount]
    rw [rangeSum_congr S _ _ h0, rangeSum_zero_fn]
    simp [latchedCount]
  | cons r rs ih =>
    have hr := hok r (List.mem_cons_self r rs)
    have hrs := fun x hx => hok x (List.mem_cons_of_mem r hx)
    have hsplit : ∀ i, i < S → ((cellCount (r :: rs) i : Nat) : Int)
        = (cellCount rs i : Int) + (if latchPred i r then 1 else 0) := by
      intro i hi
      by_cases hp : latchPred i r <;>
        simp [cellCount, List.countP_cons, hp]
    rw [rangeSum_congr S _ _ hsplit, rangeSum_add, ih hrs,
        rangeSum_latch_indicator S r hr]
    by_cases hp : (r.valid && r.index != -1) = true <;>
      simp [latchedCount, List.countP_cons, hp]

/-- `posSum` as an indexed sum over the cells. -/
theorem posSum_rangeSum (l : List Int) :
    posSum l = rangeSum l.length (fun i => posPart (l.getD i 0)) := by
  induction l with
  | nil => rfl
  | cons a t ih =>
    rw [posSum_cons, ih]
    simp only [List.length_cons, rangeSum, List.range_succ_eq_map,
      List.map_cons, List.map_map, List.sum_cons, Function.comp_def,
      List.getD_cons_zero, List.getD_cons_succ]

/-- Under `ConfigInv`, the sum of positive cell entries is exactly the
number of latched live handles. -/
theorem configInv_posSum (m : Manager) (rs : List ReadIndex)
    (h : ConfigInv m rs) :
    posSum m.readersOf = (latchedCount rs : Int) := by
  obtain ⟨hS, hw0, hwlt, hdraft, hcnt, hwl, hok, hnr, hbd, hlat⟩ := h
  rw [posSum_rangeSum]
  have hco : ∀ i, i < m.readersOf.length →
      posPart (m.readersOf.getD i 0) = (cellCount rs i : Int) := by
    intro i hi
    by_cases hiw : i = m.writerIndex.toNat
    · subst hiw
      rw [hdraft, hwl]
      rfl
    · rw [hcnt i hi hiw, posPart, max_eq_left (Int.natCast_nonneg _)]
  rw [rangeSum_congr _ _ _ hco]
  exact rangeSum_cellCount m.size rs (fun r hr => (hok r hr).2)

/-- `ConfigInv` entails the claim's four stated invariants. -/
theorem configInv_claimed (m : Manager) (rs : List ReadIndex)
    (h : ConfigInv m rs) : ClaimedInvariants m rs := by
  have hps := configInv_posSum m rs h
  obtain ⟨hS, hw0, hwlt, hdraft, hcnt, hwl, hok, hnr, hbd, hlat⟩ := h
  refine ⟨?_, ?_, ?_, hps⟩
  · intro i hi
    constructor
    · intro hneg
      by_contra hiw
      rw [hcnt i hi hiw] at hneg
      omega
    · intro hiw
      subst hiw
      exact hdraft
  · intro i hi
    by_cases hiw : i = m.writerIndex.toNat
    · subst hiw
      rw [hdraft]
    · rw [hcnt i hi hiw]
      have := Int.natCast_nonneg (cellCount rs i)
      omega
  · rcases hlat with hl | ⟨h0, hlt, hne⟩
    · exact Or.inl hl
    · refine Or.inr ⟨h0, hlt, hne, ?_⟩
      have hiw : m.latest.toNat ≠ m.writerIndex.toNat := by omega
      rw [hcnt _ hlt hiw]
      exact Int.natCast_nonneg _

/-- `getLatest` on a Manager with a published, non-draft `latest` cell:
it latches that cell and increments its count. -/
theorem getLatest_latches (r : ReadIndex) (m : Manager) (hl0 : 0 ≤ m.latest)
    (hk : 0 ≤ m.readersOf.getD m.latest.toNat 0) :
    r.getLatest m = some ({ r with index := m.latest },
      { m with readersOf := m.readersOf.set m.latest.toNat
                              (m.readersOf.getD m.latest.toNat 0 + 1) }) := by
  have hne : ¬ m.latest = -1 := by omega
  have hkne : ¬ m.readersOf.getD m.latest.toNat 0 = -1 := by omega
  rw [List.getD_eq_getElem?_getD] at hkne
  simp [ReadIndex.getLatest, hne, hkne]

/-- A successful `reset` preserves `ConfigInv` (with the — necessarily
empty — set of live handles unchanged). -/
theorem configInv_reset (m : Manager) (rs : List ReadIndex)
    (h : ConfigInv m rs) (hs : (m.reset).1 = true) :
    ConfigInv (m.reset).2 rs := by
  obtain ⟨hS, hw0, hwlt, hdraft, hcnt, hwl, hok, hnr, hbd, hlat⟩ := h
  obtain ⟨hiff, hsucc, hfail⟩ := reset_result m
  have hc := hiff.mp hs
  have hlen0 : rs.length = 0 := by
    have h1 := hnr
    rw [hc.1] at h1
    exact_mod_cast h1.symm
  have hempty : rs = [] := List.length_eq_zero.mp hlen0
  subst hempty
  rw [hsucc hc]
  have hS' : 3 ≤ m.readersOf.length := hS
  have hlen : (resetSlots m.readersOf).length = m.readersOf.length :=
    resetSlots_length m.readersOf
  refine ⟨?_, ?_, ?_, ?_, ?_, ?_, ?_, ?_, ?_, Or.inl rfl⟩
  · show 3 ≤ (resetSlots m.readersOf).length
    omega
  · show (0 : Int) ≤ 0
    exact le_refl 0
  · show (0 : Int).toNat < (resetSlots m.readersOf).length
    simp only [Int.toNat_zero]
    omega
  · show (resetSlots m.readersOf).getD (0 : Int).toNat 0 = -1
    simp only [Int.toNat_zero]
    rw [resetSlots_getD m.readersOf 0 (by omega)]
    rfl
  · intro i hi hne
    have hi' : i < m.readersOf.length := by
      simpa [Manager.size, hlen] using hi
    have hne0 : i ≠ 0 := by simpa using hne
    show (resetSlots m.readersOf).getD i 0 = (cellCount [] i : Int)
    rw [resetSlots_getD m.readersOf i hi', if_neg hne0]
    simp [cellCount]
  · simp [cellCount]
  · intro r hr
    simp at hr
  · show m.nReaders = _
    simp [hc.1]
  · show ((List.length ([] : List ReadIndex) : Nat) : Int) ≤ _
    simp [Manager.getMaxReaders, Manager.size, hlen]
    omega

/-- `pushWrite` preserves `ConfigInv` (the live handles are untouched). -/
theorem configInv_push (m : Manager) (rs : List ReadIndex)
    (h : ConfigInv m rs) : ConfigInv m.pushWrite rs := by
  have hps := configInv_posSum m rs h
  obtain ⟨hS, hw0, hwlt, hdraft, hcnt, hwl, hok, hnr, hbd, hlat⟩ := h
  have hnn : ∀ i, i < m.size → i ≠ m.writerIndex.toNat →
      0 ≤ m.readersOf.getD i 0 := by
    intro i hi hne
    rw [hcnt i hi hne]
    exact Int.natCast_nonneg _
  have hposBound : posSum m.readersOf ≤ m.getMaxReaders := by
    rw [hps]
    have h1 : (latchedCount rs : Int) ≤ (rs.length : Int) := by
      exact_mod_cast List.countP_le_length _
    exact le_trans h1 hbd
  obtain ⟨j, hjlt, hjne, hjz, hfind, hpw⟩ := pushWrite_scan m hwlt hnn hposBound
  have hjneN : j ≠ m.writerIndex.toNat := by
    intro hc
    exact hjne (by rw [hc]; exact Int.toNat_of_nonneg hw0)
  rw [hpw]
  have hS' : 3 ≤ m.readersOf.length := hS
  have hwlt' : m.writerIndex.toNat < m.readersOf.length := hwlt
  have hjlt' : j < m.readersOf.length := hjlt
  have hR1j : (m.readersOf.set m.writerIndex.toNat 0).getD j 0
      = m.readersOf.getD j 0 :=
    getD_set_ne m.readersOf m.writerIndex.toNat j 0 (fun hh => hjneN hh.symm)
  have hcj : cellCount rs j = 0 := by
    have hcj' := hcnt j hjlt hjneN
    rw [hR1j, hcj'] at hjz
    exact_mod_cast hjz
  refine ⟨?_, ?_, ?_, ?_, ?_, ?_, ?_, ?_, ?_, ?_⟩
  · show 3 ≤ ((m.readersOf.set m.writerIndex.toNat 0).set j (-1)).length
    simpa using hS'
  · exact Int.natCast_nonneg j
  · show ((j : Int)).toNat
        < ((m.readersOf.set m.writerIndex.toNat 0).set j (-1)).length
    simpa using hjlt'
  · show ((m.readersOf.set m.writerIndex.toNat 0).set j (-1)).getD
        ((j : Int)).toNat 0 = -1
    rw [show ((j : Int)).toNat = j from rfl]
    exact getD_set_self _ j _ (by simpa using hjlt')
  · intro i hi hne
    have hi' : i < m.readersOf.length := by
      simpa [Manager.size] using hi
    have hnej : i ≠ j := by
      simpa using hne
    show ((m.readersOf.set m.writerIndex.toNat 0).set j (-1)).getD i 0
        = (cellCount rs i : Int)
    rw [getD_set_ne _ j i (-1) (fun hh => hnej hh.symm)]
    by_cases hiw : i = m.writerIndex.toNat
    · subst hiw
      rw [getD_set_self m.readersOf _ 0 hwlt']
      simp [hwl]
    · rw [getD_set_ne m.readersOf _ i 0 (fun hh => hiw hh.symm)]
      exact hcnt i hi' hiw
  · show cellCount rs ((j : Int)).toNat = 0
    simpa using hcj
  · intro r hr
    obtain ⟨hv, hio⟩ := hok r hr
    refine ⟨hv, ?_⟩
    rcases hio with h1 | ⟨h1, h2⟩
    · exact Or.inl h1
    · refine Or.inr ⟨h1, ?_⟩
      show r.index.toNat
          < ((m.readersOf.set m.writerIndex.toNat 0).set j (-1)).length
      simpa using h2
  · exact hnr
  · show (rs.length : Int) ≤ _
    simp only [Manager.getMaxReaders, Manager.size, List.length_set]
    exact hbd
  · refine Or.inr ⟨hw0, ?_, fun hc => hjne hc.symm⟩
    show m.writerIndex.toNat
        < ((m.readersOf.set m.writerIndex.toNat 0).set j (-1)).length
    simpa using hwlt'

theorem cellCount_split (pre post : List ReadIndex) (r : ReadIndex) (i : Nat) :
    cellCount (pre ++ r :: post) i
      = cellCount pre i + (if latchPred i r then 1 else 0)
        + cellCount post i := by
  by_cases hp : latchPred i r
  · simp [cellCount, List.countP_cons, List.countP_append, hp]
    omega
  · simp [cellCount, List.countP_cons, List.countP_append, hp]

theorem latchPred_true_of (i : Nat) (r : ReadIndex) (hv : r.valid = true)
    (he : r.index = (i : Int)) : latchPred i r = true := by
  simp [latchPred, hv, he]

theorem latchPred_false_of (i : Nat) (r : ReadIndex)
    (hne : r.index ≠ (i : Int)) : latchPred i r = false := by
  have hb : (r.index == (i : Int)) = false := by
    rw [beq_eq_false_iff_ne]
    exact hne
  simp [latchPred, hb]

theorem ite_one_of_true {b : Bool} (h : b = true) :
    (if b then (1 : Nat) else 0) = 1 := by
  rw [h]
  rfl

theorem ite_zero_of_false {b : Bool} (h : b = false) :
    (if b then (1 : Nat) else 0) = 0 := by
  rw [h]
  rfl

/-- A live reader's `getLatest` run while it holds no latch (the
constructor path and the `pullUpdate` path) terminates and preserves
`ConfigInv`. -/
theorem configInv_getLatest (m : Manager) (rs : List ReadIndex)
    (h : ConfigInv m rs) (pre post : List ReadIndex) (r : ReadIndex)
    (hsplit : rs = pre ++ r :: post) (hidx : r.index = -1) :
    ∃ r2 m2, r.getLatest m = some (r2, m2)
      ∧ ConfigInv m2 (pre ++ r2 :: post) := by
  obtain ⟨hS, hw0, hwlt, hdraft, hcnt, hwl, hok, hnr, hbd, hlat⟩ := h
  subst hsplit
  have hrv : r.valid = true := (hok r (by simp)).1
  rcases hlat with hl | ⟨hl0, hllt, hlw⟩
  · refine ⟨r, m, ?_,
      ⟨hS, hw0, hwlt, hdraft, hcnt, hwl, hok, hnr, hbd, Or.inl hl⟩⟩
    obtain ⟨ho, hv, hi⟩ := r
    dsimp only at hidx
    subst hidx
    simp [ReadIndex.getLatest, hl]
  · have hS' : 3 ≤ m.readersOf.length := hS
    have hwlt' : m.writerIndex.toNat < m.readersOf.length := hwlt
    have hllt' : m.latest.toNat < m.readersOf.length := hllt
    have hlwT : m.latest.toNat ≠ m.writerIndex.toNat := by omega
    have hk := hcnt m.latest.toNat hllt hlwT
    have hk0 : 0 ≤ m.readersOf.getD m.latest.toNat 0 := by
      rw [hk]
      exact Int.natCast_nonneg _
    have hir2T : latchPred m.latest.toNat ({ r with index := m.latest }) = true := by
      refine latchPred_true_of _ _ hrv ?_
      show m.latest = (m.latest.toNat : Int)
      omega
    have hir2O : ∀ i : Nat, i ≠ m.latest.toNat →
        latchPred i ({ r with index := m.latest }) = false := by
      intro i hi
      refine latchPred_false_of _ _ ?_
      show m.latest ≠ (i : Int)
      omega
    have hirF : ∀ i : Nat, latchPred i r = false :=
      fun i => latchPred_of_neg i r hidx
    refine ⟨_, _, getLatest_latches r m hl0 hk0, ?_⟩
    refine ⟨?_, hw0, ?_, ?_, ?_, ?_, ?_, ?_, ?_, ?_⟩
    · show 3 ≤ (m.readersOf.set m.latest.toNat
          (m.readersOf.getD m.latest.toNat 0 + 1)).length
      simpa using hS'
    · show m.writerIndex.toNat < (m.readersOf.set m.latest.toNat
          (m.readersOf.getD m.latest.toNat 0 + 1)).length
      simpa using hwlt'
    · show (m.readersOf.set m.latest.toNat
          (m.readersOf.getD m.latest.toNat 0 + 1)).getD
            m.writerIndex.toNat 0 = -1
      rw [getD_set_ne _ _ _ _ hlwT]
      exact hdraft
    · intro i hi hiw
      have hi' : i < m.readersOf.length := by
        simpa [Manager.size] using hi
      show (m.readersOf.set m.latest.toNat
          (m.readersOf.getD m.latest.toNat 0 + 1)).getD i 0
        = (cellCount (pre ++ { r with index := m.latest } :: post) i : Int)
      by_cases hil : i = m.latest.toNat
      · subst hil
        rw [getD_set_self _ _ _ hllt', hk,
            cellCount_split pre post r m.latest.toNat,
            cellCount_split pre post ({ r with index := m.latest })
              m.latest.toNat,
            ite_zero_of_false (hirF m.latest.toNat), ite_one_of_true hir2T]
        push_cast
        ring
      · rw [getD_set_ne _ _ _ _ (fun hh => hil hh.symm), hcnt i hi' hiw,
            cellCount_split pre post r i,
            cellCount_split pre post ({ r with index := m.latest }) i,
            ite_zero_of_false (hirF i), ite_zero_of_false (hir2O i hil)]
    · show cellCount (pre ++ { r with index := m.latest } :: post)
          m.writerIndex.toNat = 0
      have hold := hwl
      rw [cellCount_split pre post r m.writerIndex.toNat,
          ite_zero_of_false (hirF m.writerIndex.toNat)] at hold
      rw [cellCount_split pre post ({ r with index := m.latest })
            m.writerIndex.toNat,
          ite_zero_of_false (hir2O m.writerIndex.toNat (fun hh => hlwT hh.symm))]
      omega
    · intro x hx
      rcases List.mem_append.mp hx with hx1 | hx2
      · obtain ⟨hv2, hio⟩ := hok x (List.mem_append_left _ hx1)
        refine ⟨hv2, ?_⟩
        rcases hio with h1 | ⟨h1, h2⟩
        · exact Or.inl h1
        · refine Or.inr ⟨h1, ?_⟩
          show x.index.toNat < (m.readersOf.set m.latest.toNat
              (m.readersOf.getD m.latest.toNat 0 + 1)).length
          simpa using h2
      · rcases List.mem_cons.mp hx2 with hx3 | hx4
        · subst hx3
          refine ⟨hrv, Or.inr ⟨hl0, ?_⟩⟩
          show m.latest.toNat < (m.readersOf.set m.latest.toNat
              (m.readersOf.getD m.latest.toNat 0 + 1)).length
          simpa using hllt'
        · obtain ⟨hv2, hio⟩ := hok x
            (List.mem_append_right _ (List.mem_cons_of_mem _ hx4))
          refine ⟨hv2, ?_⟩
          rcases hio with h1 | ⟨h1, h2⟩
          · exact Or.inl h1
          · refine Or.inr ⟨h1, ?_⟩
            show x.index.toNat < (m.readersOf.set m.latest.toNat
                (m.readersOf.getD m.latest.toNat 0 + 1)).length
            simpa using h2
    · simpa using hnr
    · show ((pre ++ { r with index := m.latest } :: post).length : Int) ≤ _
      simp only [Manager.getMaxReaders, Manager.size, List.length_set,
        List.length_append, List.length_cons]
      simpa [Manager.getMaxReaders, Manager.size] using hbd
    · refine Or.inr ⟨hl0, ?_, hlw⟩
      show m.latest.toNat < (m.readersOf.set m.latest.toNat
          (m.readersOf.getD m.latest.toNat 0 + 1)).length
      simpa using hllt'

/-- A live reader's `finishRead` preserves `ConfigInv`. -/
theorem configInv_finishRead (m : Manager) (rs : List ReadIndex)
    (h : ConfigInv m rs) (pre post : List ReadIndex) (r : ReadIndex)
    (hsplit : rs = pre ++ r :: post) :
    ConfigInv (r.finishRead m).2 (pre ++ (r.finishRead m).1 :: post) := by
  obtain ⟨hS, hw0, hwlt, hdraft, hcnt, hwl, hok, hnr, hbd, hlat⟩ := h
  subst hsplit
  have hrv : r.valid = true := (hok r (by simp)).1
  by_cases hidx : r.index = -1
  · have hfr : r.finishRead m = (r, m) := by
      obtain ⟨ho, hv, hi⟩ := r
      dsimp only at hidx
      subst hidx
      simp [ReadIndex.finishRead]
    rw [hfr]
    exact ⟨hS, hw0, hwlt, hdraft, hcnt, hwl, hok, hnr, hbd, hlat⟩
  · have hio2 : 0 ≤ r.index ∧ r.index.toNat < m.size := by
      rcases (hok r (by simp)).2 with h1 | h1
      · exact absurd h1 hidx
      · exact h1
    obtain ⟨h1, h2⟩ := hio2
    have hS' : 3 ≤ m.readersOf.length := hS
    have hwlt' : m.writerIndex.toNat < m.readersOf.length := hwlt
    have h2' : r.index.toNat < m.readersOf.length := h2
    have hjw : r.index.toNat ≠ m.writerIndex.toNat := by
      intro hc
      have hlp : latchPred m.writerIndex.toNat r = true := by
        refine latchPred_true_of _ _ hrv ?_
        omega
      have hold := hwl
      rw [cellCount_split pre post r m.writerIndex.toNat,
          ite_one_of_true hlp] at hold
      omega
    have hk := hcnt r.index.toNat h2' hjw
    have hirT : latchPred r.index.toNat r = true := by
      refine latchPred_true_of _ _ hrv ?_
      omega
    have hirO : ∀ i : Nat, i ≠ r.index.toNat → latchPred i r = false := by
      intro i hi
      refine latchPred_false_of _ _ ?_
      omega
    have hir2 : ∀ i : Nat, latchPred i ({ r with index := -1 }) = false :=
      fun i => latchPred_of_neg i _ rfl
    have hfr : r.finishRead m = ({ r with index := -1 },
        { m with readersOf := m.readersOf.set r.index.toNat
                                (m.readersOf.getD r.index.toNat 0 - 1) }) := by
      simp [ReadIndex.finishRead, hidx]
    rw [hfr]
    refine ⟨?_, hw0, ?_, ?_, ?_, ?_, ?_, ?_, ?_, ?_⟩
    · show 3 ≤ (m.readersOf.set r.index.toNat
          (m.readersOf.getD r.index.toNat 0 - 1)).length
      simpa using hS'
    · show m.writerIndex.toNat < (m.readersOf.set r.index.toNat
          (m.readersOf.getD r.index.toNat 0 - 1)).length
      simpa using hwlt'
    · show (m.readersOf.set r.index.toNat
          (m.readersOf.getD r.index.toNat 0 - 1)).getD
            m.writerIndex.toNat 0 = -1
      rw [getD_set_ne _ _ _ _ hjw]
      exact hdraft
    · intro i hi hiw
      have hi' : i < m.readersOf.length := by
        simpa [Manager.size] using hi
      show (m.readersOf.set r.index.toNat
          (m.readersOf.getD r.index.toNat 0 - 1)).getD i 0
        = (cellCount (pre ++ { r with index := -1 } :: post) i : Int)
      by_cases hil : i = r.index.toNat
      · subst hil
        rw [getD_set_self _ _ _ h2', hk,
            cellCount_split pre post r r.index.toNat,
            cellCount_split pre post ({ r with index := -1 }) r.index.toNat,
            ite_one_of_true hirT, ite_zero_of_false (hir2 r.index.toNat)]
        push_cast
        ring
      · rw [getD_set_ne _ _ _ _ (fun hh => hil hh.symm), hcnt i hi' hiw,
            cellCount_split pre post r i,
            cellCount_split pre post ({ r with index := -1 }) i,
            ite_zero_of_false (hirO i hil), ite_zero_of_false (hir2 i)]
    · show cellCount (pre ++ { r with index := -1 } :: post)
          m.writerIndex.toNat = 0
      have hold := hwl
      rw [cellCount_split pre post r m.writerIndex.toNat,
          ite_zero_of_false (hirO m.writerIndex.toNat
            (fun hh => hjw hh.symm))] at hold
      rw [cellCount_split pre post ({ r with index := -1 })
            m.writerIndex.toNat,
          ite_zero_of_false (hir2 m.writerIndex.toNat)]
      omega
    · intro x hx
      rcases List.mem_append.mp hx with hx1 | hx2
      · obtain ⟨hv2, hio3⟩ := hok x (List.mem_append_left _ hx1)
        refine ⟨hv2, ?_⟩
        rcases hio3 with hh1 | ⟨hh1, hh2⟩
        · exact Or.inl hh1
        · refine Or.inr ⟨hh1, ?_⟩
          show x.index.toNat < (m.readersOf.set r.index.toNat
              (m.readersOf.getD r.index.toNat 0 - 1)).length
          simpa using hh2
      · rcases List.mem_cons.mp hx2 with hx3 | hx4
        · subst hx3
          exact ⟨hrv, Or.inl rfl⟩
        · obtain ⟨hv2, hio3⟩ := hok x
            (List.mem_append_right _ (List.mem_cons_of_mem _ hx4))
          refine ⟨hv2, ?_⟩
          rcases hio3 with hh1 | ⟨hh1, hh2⟩
          · exact Or.inl hh1
          · refine Or.inr ⟨hh1, ?_⟩
            show x.index.toNat < (m.readersOf.set r.index.toNat
                (m.readersOf.getD r.index.toNat 0 - 1)).length
            simpa using hh2
    · simpa using hnr
    · show ((pre ++ { r with index := -1 } :: post).length : Int) ≤ _
      simp only [Manager.getMaxReaders, Manager.size, List.length_set,
        List.length_append, List.length_cons]
      simpa [Manager.getMaxReaders, Manager.size] using hbd
    · rcases hlat with hl | ⟨hl0, hllt2, hlw2⟩
      · exact Or.inl hl
      · refine Or.inr ⟨hl0, ?_, hlw2⟩
        show m.latest.toNat < (m.readersOf.set r.index.toNat
            (m.readersOf.getD r.index.toNat 0 - 1)).length
        simpa using hllt2

/-- C2: every operation of the Manager — a successful `reset`, the writer's
`pushWrite`, a reader's `getLatest` (run while holding no latch: the
constructor path and the `pullUpdate` re-latch path), and a reader's
`finishRead` — preserves the sequential state invariant `ConfigInv`, which
entails the claim's four invariants (`ClaimedInvariants`): the draft is the
unique -1 cell (at `writerIndex`), every cell is at least -1, `latest` is
-1 or a valid non-draft index with a nonnegative cell, and the sum of the
positive cells equals the number of currently latched read handles. -/
theorem operations_preserve_invariants (m : Manager) (rs : List ReadIndex)
    (h : ConfigInv m rs) :
    ClaimedInvariants m rs
    ∧ ((m.reset).1 = true → ConfigInv (m.reset).2 rs)
    ∧ ConfigInv m.pushWrite rs
    ∧ (∀ pre r post, rs = pre ++ r :: post → r.index = -1 →
        ∃ r2 m2, r.getLatest m = some (r2, m2)
          ∧ ConfigInv m2 (pre ++ r2 :: post))
    ∧ (∀ pre r post, rs = pre ++ r :: post →
        ConfigInv (r.finishRead m).2 (pre ++ (r.finishRead m).1 :: post)) :=
  ⟨configInv_claimed m rs h,
   fun hs => configInv_reset m rs h hs,
   configInv_push m rs h,
   fun pre r post hsp hi => configInv_getLatest m rs h pre post r hsp hi,
   fun pre r post hsp => configInv_finishRead m rs h pre post r hsp⟩

/-- Witness for C2 at a concrete configuration: maxReaders = 1, one live
handle latched on cell 0, draft at cell 1; `pushWrite` preserves the
invariant there. -/
theorem operations_preserve_invariants_witness :
    ConfigInv ⟨1, 0, [1, -1, 0], 0, 1⟩ [⟨true, true, 0⟩]
    ∧ ConfigInv (⟨1, 0, [1, -1, 0], 0, 1⟩ : Manager).pushWrite
        [⟨true, true, 0⟩] :=
  ⟨by decide,
   (operations_preserve_invariants ⟨1, 0, [1, -1, 0], 0, 1⟩
      [⟨true, true, 0⟩] (by decide)).2.2.1⟩

end RWSync
